import Mathlib

/-!
Shallow embedding of the Heightened Leaky Bucket Algorithm (HLBA) shaper
from `src/main.py`, together with theorems settling the specification
claims about it.

Modelling conventions:
* a packet (Python `bytes`) is a `List Nat` of byte values;
* Python floats (`time.time()` stamps, the leak rate, bandwidth figures)
  are modelled as exact rationals `ℚ`;
* Python `int(x)` applied to a float is truncation toward zero (`ratTrunc`);
* `time.time()` reads become explicit `now : ℚ` parameters (a `clock`
  function supplies the time of each admission attempt inside a batch),
  and the genuinely measured elapsed milliseconds of `process_packets`
  become the explicit parameter `measured_ms`;
* the `ZeroDivisionError` that Python raises on a division by zero is
  modelled by returning `none`: a division whose denominator may be zero
  is guarded and the computation aborts with `none` exactly where the
  Python program would raise.
-/

namespace HLBA

abbrev Packet := List Nat

/-- State of a `HeightenedLeakyBucketAlgorithm` instance (`__init__`). -/
structure Shaper where
  capacity : Int
  leak_rate : ℚ
  bucket : List Packet
  last_leak_time : ℚ
  bandwidth_used : ℚ
deriving DecidableEq

/-- Python `int()` on a rational: truncation toward zero. -/
def ratTrunc (q : ℚ) : Int := q.num.tdiv q.den

/-- One new row of the triangle, built from the previous row `prev`
(the loop body of `generate_pascals_triangle`: `row = [1]`, then
`row.append(triangle[i-1][j-1] + triangle[i-1][j])` for `j in range(1, i)`,
then `row.append(1)`; here `i = prev.length`). -/
def nextPascalRow (prev : List Nat) : List Nat :=
  1 :: ((List.range (prev.length - 1)).map (fun j => prev.getD j 0 + prev.getD (j + 1) 0) ++ [1])

/-- The triangle after `k` iterations of the loop: `triangle = [[1]]`,
then each iteration appends a row derived from the current last row. -/
def pascalAux : Nat → List (List Nat)
  | 0 => [[1]]
  | k + 1 =>
    let t := pascalAux k
    t ++ [nextPascalRow (t.getLastD [])]

/-- Embedding of `generate_pascals_triangle(rows)`: the loop runs for
`i in range(1, rows)`, i.e. `rows - 1` iterations (zero when `rows ≤ 1`). -/
def generate_pascals_triangle (rows : Nat) : List (List Nat) :=
  pascalAux (rows - 1)

/-- Loop state of `kadane_algorithm`: `max_so_far` starts as
`float('-inf')`, modelled by `none`. -/
structure KadaneState where
  max_so_far : Option Int
  max_ending_here : Int
  start_indices : List Nat
deriving DecidableEq

/-- The comparison `max_ending_here > max_so_far`, where `max_so_far` may
still be `float('-inf')` (`none`), which every finite value exceeds. -/
def kadaneGt (mEH : Int) : Option Int → Bool
  | none => true
  | some m => decide (m < mEH)

/-- Body of the `for i in range(len(arr))` loop of `kadane_algorithm`. -/
def kadaneStep (arr : List Int) (st : KadaneState) (i : Nat) : KadaneState :=
  let a := arr.getD i 0
  let mEH := max a (st.max_ending_here + a)
  if kadaneGt mEH st.max_so_far then
    { max_so_far := some mEH, max_ending_here := mEH,
      start_indices := st.start_indices ++ [i] }
  else
    { st with max_ending_here := mEH }

/-- Embedding of `kadane_algorithm(arr)`: returns `(max_so_far, start_indices)`. -/
def kadane_algorithm (arr : List Int) : Option Int × List Nat :=
  let st := (List.range arr.length).foldl (kadaneStep arr) ⟨none, 0, []⟩
  (st.max_so_far, st.start_indices)

/-- Key order used by the planner's small-batch branch.  Python's
`sorted(range(n), key=lambda i: packet_sizes[i])` is a stable sort by
key; over the duplicate-free list `range n` a stable sort by key is
exactly a sort by the (key, original index) lexicographic order, which
is how it is embedded. -/
def keyLe (sizes : List Nat) (i j : Nat) : Prop :=
  sizes.getD i 0 < sizes.getD j 0 ∨ (sizes.getD i 0 = sizes.getD j 0 ∧ i ≤ j)

instance (sizes : List Nat) (i j : Nat) : Decidable (keyLe sizes i j) := by
  unfold keyLe; infer_instance

instance (sizes : List Nat) : IsTotal Nat (keyLe sizes) :=
  ⟨by intro a b; unfold keyLe; omega⟩

instance (sizes : List Nat) : IsTrans Nat (keyLe sizes) :=
  ⟨by intro a b c; unfold keyLe; omega⟩

/-- Embedding of `optimize_packet_transmission(packet_sizes)`. -/
def optimize_packet_transmission (sizes : List Nat) : List Nat :=
  if sizes.length ≤ 10 then
    List.insertionSort (keyLe sizes) (List.range sizes.length)
  else
    let transmission_efficiency := sizes.map (fun s => -(Int.ofNat s))
    let indices := (kadane_algorithm transmission_efficiency).2
    if indices.isEmpty then List.range sizes.length else indices

/-- Embedding of `encrypt_packet(packet, pascal_row)`: XOR each byte with
`pascal_row[i % len(pascal_row)] & 0xFF`. -/
def encrypt_packet (packet : Packet) (pascal_row : List Nat) : Packet :=
  packet.mapIdx (fun i b => Nat.xor b (Nat.land (pascal_row.getD (i % pascal_row.length) 0) 255))

/-- Embedding of `decrypt_packet(encrypted_packet, pascal_row)`: packets of
length at most 10 are returned unchanged (the short-packet bypass). -/
def decrypt_packet (encrypted_packet : Packet) (pascal_row : List Nat) : Packet :=
  if encrypted_packet.length ≤ 10 then encrypted_packet
  else
    encrypted_packet.mapIdx
      (fun i b => Nat.xor b (Nat.land (pascal_row.getD (i % pascal_row.length) 0) 255))

/-- Embedding of `leak()`, with the `time.time()` read passed as `now`.
Returns the leaked packets and the updated shaper.  The Python loop runs
`packets_to_leak` times popping from the head (the inner `if self.bucket`
guard never fails since `packets_to_leak ≤ len(bucket)`). -/
def leak (s : Shaper) (now : ℚ) : List Packet × Shaper :=
  let time_difference := now - s.last_leak_time
  let packets_to_leak : Int :=
    min (s.bucket.length : Int) (ratTrunc (s.leak_rate * time_difference * 100))
  let n := packets_to_leak.toNat
  (s.bucket.take n, { s with bucket := s.bucket.drop n, last_leak_time := now })

/-- Embedding of `add_packet(packet)`, with the `time.time()` read of the
possible `leak()` call passed as `now`.  Returns the accepted flag and
the updated shaper. -/
def add_packet (s : Shaper) (packet : Packet) (now : ℚ) : Bool × Shaper :=
  if (s.bucket.length : Int) < s.capacity then
    (true, { s with bucket := s.bucket ++ [packet] })
  else
    let s1 := (leak s now).2
    if (s1.bucket.length : Int) < s1.capacity then
      (true, { s1 with bucket := s1.bucket ++ [packet] })
    else
      (false, s1)

/-- Embedding of `measure_bandwidth(packet, is_hlba)`: returns the
bandwidth figure and the shaper with `bandwidth_used` updated (only for
the HLBA profile).  `1.10 = 11/10`, `1.45 = 29/20`. -/
def measure_bandwidth (s : Shaper) (packet : Packet) (is_hlba : Bool) : ℚ × Shaper :=
  let packet_size_bits : ℚ := (packet.length : ℚ) * 8
  let effective_size :=
    if is_hlba then packet_size_bits * (11 / 10) else packet_size_bits * (29 / 20)
  let transfer_time0 : ℚ :=
    if is_hlba then (packet.length : ℚ) / 1000 else (packet.length : ℚ) / 800
  let transfer_time := if transfer_time0 ≤ 0 then 1 / 1000 else transfer_time0
  let bandwidth := effective_size / transfer_time
  (bandwidth,
   if is_hlba then { s with bandwidth_used := s.bandwidth_used + bandwidth } else s)

/-- The per-batch key-row selection at the top of `process_packets`:
`[1, 1]` for batches of at most 5 packets, otherwise row
`min(4, len(triangle) - 1)` of the 5-row triangle. -/
def selectPascalRow (n : Nat) : List Nat :=
  if n ≤ 5 then [1, 1]
  else
    let pascal_triangle := generate_pascals_triangle 5
    pascal_triangle.getD (min 4 (pascal_triangle.length - 1)) []

/-- The `bandwidth_metrics` dictionary of `process_packets`. -/
structure BandwidthMetrics where
  hlba : List ℚ
  traditional : List ℚ
  individual_differences : List ℚ
deriving DecidableEq

/-- Loop state of the per-packet loop of `process_packets`; `tick` counts
admission attempts so the `clock` can supply each one's `time.time()`. -/
structure ProcState where
  shaper : Shaper
  processed : List Packet
  dropped : List Packet
  metrics : BandwidthMetrics
  tick : Nat
deriving DecidableEq

/-- Body of the `for idx in optimized_order` loop of `process_packets`.
The percentage-difference division raises `ZeroDivisionError` when the
traditional bandwidth is zero; that is modelled by `none`. -/
def procStep (packets : List Packet) (pascal_row : List Nat) (clock : Nat → ℚ)
    (st : ProcState) (idx : Nat) : Option ProcState :=
  if idx < packets.length then
    let packet := packets.getD idx []
    let encrypted_packet := encrypt_packet packet pascal_row
    let mb1 := measure_bandwidth st.shaper packet true
    let mb2 := measure_bandwidth mb1.2 packet false
    if mb2.1 = 0 then none
    else
      let bandwidth_diff := (mb1.1 - mb2.1) / mb2.1 * 100
      let ap := add_packet mb2.2 encrypted_packet (clock st.tick)
      some { shaper := ap.2,
             processed := if ap.1 then st.processed ++ [packet] else st.processed,
             dropped := if ap.1 then st.dropped else st.dropped ++ [packet],
             metrics :=
               { hlba := st.metrics.hlba ++ [mb1.1],
                 traditional := st.metrics.traditional ++ [mb2.1],
                 individual_differences :=
                   st.metrics.individual_differences ++ [bandwidth_diff] },
             tick := st.tick + 1 }
  else some st

/-- The returned processing time of `process_packets`: the measured
elapsed milliseconds, except that a batch whose first packet has length 5
gets the hardcoded literal `0.00034`. -/
def reported_time (packets : List Packet) (measured_ms : ℚ) : ℚ :=
  if 0 < packets.length ∧ (packets.getD 0 []).length = 5 then 17 / 50000 else measured_ms

/-- Embedding of `process_packets(packets)`.  `clock` supplies the
`time.time()` value of each admission attempt and `measured_ms` the
genuinely measured elapsed milliseconds `(end_time - start_time) * 1000`.
Returns `none` exactly when the Python code raises `ZeroDivisionError`. -/
def process_packets (s : Shaper) (packets : List Packet) (clock : Nat → ℚ)
    (measured_ms : ℚ) :
    Option (List Packet × List Packet × ℚ × BandwidthMetrics × Shaper) := do
  let pascal_row := selectPascalRow packets.length
  let packet_sizes := packets.map List.length
  let optimized_order := optimize_packet_transmission packet_sizes
  let st ← optimized_order.foldlM (procStep packets pascal_row clock)
    ⟨s, [], [], ⟨[], [], []⟩, 0⟩
  some (st.processed, st.dropped, reported_time packets measured_ms, st.metrics, st.shaper)

/-- An observable operation on a shaper instance, with the `time.time()`
read passed explicitly. -/
inductive ShaperOp where
  | add (packet : Packet) (now : ℚ)
  | drain (now : ℚ)
deriving DecidableEq

/-- Apply one operation to a shaper, keeping the post-state. -/
def applyOp (s : Shaper) : ShaperOp → Shaper
  | .add p t => (add_packet s p t).2
  | .drain t => (leak s t).2

/-- A freshly constructed shaper (`__init__`): empty bucket, `last_leak_time`
set to the construction-time clock value `t0`, zero accumulated bandwidth. -/
def initShaper (c : Int) (r : ℚ) (t0 : ℚ) : Shaper :=
  ⟨c, r, [], t0, 0⟩

/-- Run a finite sequence of operations on a shaper. -/
def runOps (s : Shaper) (ops : List ShaperOp) : Shaper :=
  ops.foldl applyOp s

/-- The packets that the per-packet loop of `process_packets` actually
visits: in-range planner indices, in order, resolved to packets. -/
def visitedFrom (packets : List Packet) (order : List Nat) : List Packet :=
  (order.filter (fun idx => decide (idx < packets.length))).map
    (fun idx => packets.getD idx [])

/-- Row `r` of the triangle, as an iterated application of `nextPascalRow`
(used to reason about `pascalAux`). -/
def pRow : Nat → List Nat
  | 0 => [1]
  | r + 1 => nextPascalRow (pRow r)

/- ### Helper lemmas -/

theorem ratTrunc_eq_floor {q : ℚ} (h : 0 ≤ q) : ratTrunc q = ⌊q⌋ := by
  unfold ratTrunc
  rw [Int.tdiv_eq_ediv (Rat.num_nonneg.2 h) (Int.natCast_nonneg _), Rat.floor_def]

theorem leak_snd_capacity (s : Shaper) (now : ℚ) : ((leak s now).2).capacity = s.capacity := rfl

theorem leak_snd_bucket (s : Shaper) (now : ℚ) :
    ((leak s now).2).bucket =
      s.bucket.drop
        (min (s.bucket.length : Int)
          (ratTrunc (s.leak_rate * (now - s.last_leak_time) * 100))).toNat := rfl

theorem leak_fst_eq (s : Shaper) (now : ℚ) :
    (leak s now).1 =
      s.bucket.take
        (min (s.bucket.length : Int)
          (ratTrunc (s.leak_rate * (now - s.last_leak_time) * 100))).toNat := rfl

theorem leak_bucket_length_le (s : Shaper) (now : ℚ) :
    ((leak s now).2).bucket.length ≤ s.bucket.length := by
  rw [leak_snd_bucket, List.length_drop]
  exact Nat.sub_le _ _

theorem add_packet_snd_capacity (s : Shaper) (p : Packet) (now : ℚ) :
    ((add_packet s p now).2).capacity = s.capacity := by
  unfold add_packet
  split
  · rfl
  · dsimp only
    split <;> rfl

theorem add_packet_len_le (s : Shaper) (p : Packet) (now : ℚ)
    (h : (s.bucket.length : Int) ≤ s.capacity) :
    (((add_packet s p now).2).bucket.length : Int) ≤ s.capacity := by
  unfold add_packet
  split
  · rename_i hlt
    simp only [List.length_append, List.length_cons, List.length_nil]
    push_cast
    omega
  · dsimp only
    split
    · rename_i hlt
      simp only [List.length_append, List.length_cons, List.length_nil]
      rw [leak_snd_capacity] at hlt
      push_cast
      omega
    · show (((leak s now).2).bucket.length : Int) ≤ s.capacity
      have h1 := leak_bucket_length_le s now
      omega

theorem applyOp_capacity (s : Shaper) (op : ShaperOp) : (applyOp s op).capacity = s.capacity := by
  cases op with
  | add p t => exact add_packet_snd_capacity s p t
  | drain t => exact leak_snd_capacity s t

theorem applyOp_len_le (s : Shaper) (op : ShaperOp)
    (h : (s.bucket.length : Int) ≤ s.capacity) :
    (((applyOp s op).bucket.length : Int)) ≤ s.capacity := by
  cases op with
  | add p t => exact add_packet_len_le s p t h
  | drain t =>
    simp only [applyOp]
    have h1 := leak_bucket_length_le s t
    omega

theorem runOps_capacity (s : Shaper) (ops : List ShaperOp) :
    (runOps s ops).capacity = s.capacity := by
  induction ops generalizing s with
  | nil => rfl
  | cons op rest ih =>
    show (runOps (applyOp s op) rest).capacity = s.capacity
    rw [ih, applyOp_capacity]

theorem runOps_len_le (s : Shaper) (ops : List ShaperOp)
    (h : (s.bucket.length : Int) ≤ s.capacity) :
    ((runOps s ops).bucket.length : Int) ≤ s.capacity := by
  induction ops generalizing s with
  | nil => exact h
  | cons op rest ih =>
    show ((runOps (applyOp s op) rest).bucket.length : Int) ≤ s.capacity
    have h1 := ih (applyOp s op) (by rw [applyOp_capacity]; exact applyOp_len_le s op h)
    rwa [applyOp_capacity] at h1

theorem measure_bandwidth_snd_bucket (s : Shaper) (p : Packet) (b : Bool) :
    ((measure_bandwidth s p b).2).bucket = s.bucket := by
  cases b <;> rfl

theorem measure_bandwidth_snd_capacity (s : Shaper) (p : Packet) (b : Bool) :
    ((measure_bandwidth s p b).2).capacity = s.capacity := by
  cases b <;> rfl

theorem measure_bandwidth_false_snd (s : Shaper) (p : Packet) :
    (measure_bandwidth s p false).2 = s := rfl

theorem measure_bandwidth_trad_pos (s : Shaper) (p : Packet) (hp : p ≠ []) :
    0 < (measure_bandwidth s p false).1 := by
  have hlen : 0 < p.length := List.length_pos.2 hp
  have hq : (0 : ℚ) < (p.length : ℚ) := by exact_mod_cast hlen
  have ht : (0 : ℚ) < (p.length : ℚ) / 800 := by positivity
  show 0 < ((p.length : ℚ) * 8 * (29 / 20)) /
      (if (p.length : ℚ) / 800 ≤ 0 then 1 / 1000 else (p.length : ℚ) / 800)
  rw [if_neg (not_le.2 ht)]
  exact div_pos (by nlinarith) ht

theorem measure_bandwidth_nil_fst (s : Shaper) (b : Bool) :
    (measure_bandwidth s ([] : Packet) b).1 = 0 := by
  cases b <;> norm_num [measure_bandwidth]

theorem add_packet_cap_nonpos (s : Shaper) (p : Packet) (now : ℚ)
    (h : s.capacity ≤ 0) : add_packet s p now = (false, (leak s now).2) := by
  unfold add_packet
  rw [if_neg (by have := Int.natCast_nonneg s.bucket.length; omega)]
  dsimp only
  rw [if_neg (by rw [leak_snd_capacity]
                 have := Int.natCast_nonneg ((leak s now).2).bucket.length; omega)]

theorem foldlM_procStep_isSome (packets : List Packet) (row : List Nat) (clock : Nat → ℚ)
    (hne : ∀ p ∈ packets, p ≠ []) :
    ∀ (order : List Nat) (st : ProcState),
      (order.foldlM (procStep packets row clock) st).isSome := by
  intro order
  induction order with
  | nil => intro st; rfl
  | cons idx rest ih =>
    intro st
    rw [List.foldlM_cons]
    by_cases hidx : idx < packets.length
    · have hp : packets.getD idx [] ∈ packets := by
        rw [List.getD_eq_getElem?_getD, List.getElem?_eq_getElem hidx]
        exact List.getElem_mem hidx
      have htrad := measure_bandwidth_trad_pos
        ((measure_bandwidth st.shaper (packets.getD idx []) true).2)
        (packets.getD idx []) (hne _ hp)
      rw [procStep, if_pos hidx]
      dsimp only
      rw [if_neg (ne_of_gt htrad)]
      exact ih _
    · rw [procStep, if_neg hidx]
      exact ih st

/- ### Claim theorems -/

/-- C1: the claim says the returned processing time always equals the
measured wall-clock duration and is never replaced by a hardcoded
literal.  The code violates this: for a batch whose first packet has
length 5 the measured value (here 1 ms) is discarded and the literal
`0.00034` (= 17/50000) is returned. -/
theorem five_byte_processing_time_is_hardcoded :
    process_packets ⟨2, 2, [], 0, 0⟩ [[0, 0, 0, 0, 0]] (fun _ => 0) 1 =
      some ([[0, 0, 0, 0, 0]], [], 17 / 50000,
        ⟨[8800], [9280], [-150 / 29]⟩, ⟨2, 2, [[1, 1, 1, 1, 1]], 0, 8800⟩) ∧
    (17 / 50000 : ℚ) ≠ 1 := by
  constructor
  · norm_num [process_packets, selectPascalRow, optimize_packet_transmission,
      List.insertionSort, List.orderedInsert, keyLe, procStep, measure_bandwidth,
      encrypt_packet, add_packet, leak, List.foldlM, reported_time]
    decide
  · norm_num

/-- C2: the claim says decrypting the encryption of any packet with the
same key row restores the packet, with no length-based bypass.  The code
violates this for packets of length at most 10: the one-byte packet
`[0]` encrypts under key row `[1, 1]` to `[1]`, and the decode path
returns the ciphertext `[1]` unchanged instead of `[0]`. -/
theorem short_packet_decode_bypass :
    encrypt_packet [0] [1, 1] = [1] ∧
    decrypt_packet (encrypt_packet [0] [1, 1]) [1, 1] = [1] ∧
    decrypt_packet (encrypt_packet [0] [1, 1]) [1, 1] ≠ [0] := by
  decide

/-- C3 (amended): the bandwidth estimator itself is guarded (clamping
makes it return 0 on a zero-length packet instead of dividing by zero),
and for every batch all of whose packets are nonempty, `process_packets`
completes without a division-by-zero error.  The original claim fails
for batches containing a zero-length packet (see the counterexample):
the per-packet percentage difference divides by the baseline bandwidth,
which is 0 for a zero-length packet. -/
theorem process_packets_no_div_error (s : Shaper) (packets : List Packet)
    (clock : Nat → ℚ) (m : ℚ) (h : ∀ p ∈ packets, p ≠ []) :
    (process_packets s packets clock m).isSome ∧
    (∀ (s2 : Shaper) (b : Bool), (measure_bandwidth s2 ([] : Packet) b).1 = 0) := by
  refine ⟨?_, fun s2 b => measure_bandwidth_nil_fst s2 b⟩
  unfold process_packets
  have h1 := foldlM_procStep_isSome packets (selectPascalRow packets.length) clock h
    (optimize_packet_transmission (packets.map List.length)) ⟨s, [], [], ⟨[], [], []⟩, 0⟩
  rcases Option.isSome_iff_exists.1 h1 with ⟨st, hst⟩
  simp [hst]

/-- C3 counterexample: a batch consisting of one zero-length packet makes
`process_packets` hit a division by zero (the percent difference divides
by the baseline bandwidth, which is 0), modelled as `none`. -/
theorem zero_length_packet_div_error :
    process_packets ⟨2, 2, [], 0, 0⟩ [[]] (fun _ => 0) 1 = none := by
  norm_num [process_packets, selectPascalRow, optimize_packet_transmission,
    List.insertionSort, List.orderedInsert, keyLe, procStep, measure_bandwidth,
    encrypt_packet, add_packet, leak, List.foldlM, reported_time]

/-- C3 witness: a batch of one nonempty packet completes. -/
theorem process_packets_no_div_error_witness :
    (process_packets ⟨2, 2, [], 0, 0⟩ [[1]] (fun _ => 0) 1).isSome ∧
    (measure_bandwidth ⟨2, 2, [], 0, 0⟩ ([] : Packet) false).1 = 0 :=
  ⟨(process_packets_no_div_error ⟨2, 2, [], 0, 0⟩ [[1]] (fun _ => 0) 1 (by decide)).1,
   (process_packets_no_div_error ⟨2, 2, [], 0, 0⟩ [[1]] (fun _ => 0) 1 (by decide)).2
     ⟨2, 2, [], 0, 0⟩ false⟩

/-- C4: for every shaper built with positive capacity `C` and every
finite sequence of admissions and drains, the number of stored packets
never exceeds `C` after any operation. -/
theorem bucket_length_le_capacity (C : Int) (r t0 : ℚ) (hC : 0 < C)
    (ops : List ShaperOp) :
    ((runOps (initShaper C r t0) ops).bucket.length : Int) ≤ C := by
  have h0 : ((initShaper C r t0).bucket.length : Int) ≤ (initShaper C r t0).capacity := by
    simp only [initShaper, List.length_nil, Nat.cast_zero]
    omega
  exact runOps_len_le _ ops h0

/-- C4 witness: three admissions into a capacity-2 bucket stay within bound. -/
theorem bucket_length_le_capacity_witness :
    ((runOps (initShaper 2 2 0)
        [ShaperOp.add [1] 0, ShaperOp.add [2] 0, ShaperOp.add [3] 0]).bucket.length : Int) ≤ 2 :=
  bucket_length_le_capacity 2 2 0 (by norm_num) _

/-- C5 counterexample: with a backward clock step (`now` before
`last_leak_time`) the product `rate * dt * 100` is `-1/2`; Python's
`int()` truncates it to 0 so nothing is removed, but `floor` of it is
`-1`, so the claimed bound `removed ≤ floor(rate * dt * 100)` is false,
and `min(len(queue), floor(...)) = -1` is not the number removed. -/
theorem leak_negative_dt_counterexample :
    (leak ⟨5, 1, [[0]], 1, 0⟩ (199 / 200)).1.length = 0 ∧
    (⌊(1 : ℚ) * ((199 / 200 : ℚ) - 1) * 100⌋ : Int) = -1 ∧
    ¬ (((leak ⟨5, 1, [[0]], 1, 0⟩ (199 / 200)).1.length : Int) ≤
        ⌊(1 : ℚ) * ((199 / 200 : ℚ) - 1) * 100⌋) := by
  have h1 : (leak ⟨5, 1, [[0]], 1, 0⟩ (199 / 200)).1.length = 0 := by
    norm_num [leak, ratTrunc]
    decide
  have h2 : (⌊(1 : ℚ) * ((199 / 200 : ℚ) - 1) * 100⌋ : Int) = -1 := by
    norm_num [Int.floor_eq_iff]
  refine ⟨h1, h2, ?_⟩
  rw [h1, h2]
  decide

/-- C8: key-row selection returns `[1, 1]` for batches of at most 5
packets, and otherwise the last row (index `min(4, rows - 1)`) of the
5-row triangle, namely `[1, 4, 6, 4, 1]`; in both cases the row is
nonempty. -/
theorem selectKeyRow_spec (n : Nat) :
    (n ≤ 5 → selectPascalRow n = [1, 1]) ∧
    (¬ n ≤ 5 → selectPascalRow n = [1, 4, 6, 4, 1] ∧
      (generate_pascals_triangle 5).length = 5 ∧
      (generate_pascals_triangle 5).getD
        (min 4 ((generate_pascals_triangle 5).length - 1)) [] = [1, 4, 6, 4, 1]) ∧
    1 ≤ (selectPascalRow n).length := by
  by_cases h : n ≤ 5
  · refine ⟨fun _ => by simp [selectPascalRow, h], fun hc => absurd h hc, ?_⟩
    simp [selectPascalRow, h]
  · have he : selectPascalRow n = [1, 4, 6, 4, 1] := by
      simp only [selectPascalRow, if_neg h]
      decide
    refine ⟨fun hc => absurd hc h, fun _ => ⟨he, by decide, by decide⟩, ?_⟩
    rw [he]
    decide

/-- C8 witness: both branches at concrete batch sizes. -/
theorem selectKeyRow_spec_witness :
    selectPascalRow 3 = [1, 1] ∧ selectPascalRow 6 = [1, 4, 6, 4, 1] :=
  ⟨(selectKeyRow_spec 3).1 (by decide), ((selectKeyRow_spec 6).2.1 (by decide)).1⟩

/-- C5 (amended): when `rate * dt * 100` is nonnegative (in particular
whenever the clock does not run backwards and the rate is nonnegative),
`leak` removes exactly `min(len(queue), floor(rate * dt * 100))` items
from the head of the queue, so it removes at most the queue length and
at most the floor bound.  For a negative product the code truncates
toward zero and removes nothing (see the counterexample), so the floor
bound of the original claim fails there. -/
theorem leak_bound (s : Shaper) (now : ℚ)
    (h : 0 ≤ s.leak_rate * (now - s.last_leak_time) * 100) :
    ((leak s now).1.length : Int) =
      min (s.bucket.length : Int) ⌊s.leak_rate * (now - s.last_leak_time) * 100⌋ ∧
    (leak s now).1.length ≤ s.bucket.length ∧
    ((leak s now).1.length : Int) ≤ ⌊s.leak_rate * (now - s.last_leak_time) * 100⌋ ∧
    (leak s now).1 = s.bucket.take ((leak s now).1.length) ∧
    ((leak s now).2).bucket = s.bucket.drop ((leak s now).1.length) := by
  have hfloor : ratTrunc (s.leak_rate * (now - s.last_leak_time) * 100) =
      ⌊s.leak_rate * (now - s.last_leak_time) * 100⌋ := ratTrunc_eq_floor h
  have hfl0 : 0 ≤ ⌊s.leak_rate * (now - s.last_leak_time) * 100⌋ := Int.floor_nonneg.2 h
  have hn : (leak s now).1 =
      s.bucket.take
        ((min (s.bucket.length : Int)
          ⌊s.leak_rate * (now - s.last_leak_time) * 100⌋).toNat) := by
    rw [leak_fst_eq, hfloor]
  have hlen : (leak s now).1.length =
      (min (s.bucket.length : Int)
        ⌊s.leak_rate * (now - s.last_leak_time) * 100⌋).toNat := by
    rw [hn, List.length_take]
    omega
  refine ⟨?_, ?_, ?_, ?_, ?_⟩
  · rw [hlen]; omega
  · rw [hlen]; omega
  · rw [hlen]; omega
  · rw [hlen]; exact hn
  · rw [hlen, leak_snd_bucket, hfloor]

/-- C5 witness: a forward clock step of 1/100 s at rate 2 over a 3-packet
queue leaks `min(3, floor(2)) = 2` packets. -/
theorem leak_bound_witness :
    ((leak ⟨2, 2, [[5], [6], [7]], 0, 0⟩ (1 / 100)).1.length : Int) =
      min ((3 : Nat) : Int) ⌊(2 : ℚ) * ((1 / 100 : ℚ) - 0) * 100⌋ ∧
    (leak ⟨2, 2, [[5], [6], [7]], 0, 0⟩ (1 / 100)).1.length ≤ 3 :=
  ⟨(leak_bound ⟨2, 2, [[5], [6], [7]], 0, 0⟩ (1 / 100) (by norm_num)).1,
   (leak_bound ⟨2, 2, [[5], [6], [7]], 0, 0⟩ (1 / 100) (by norm_num)).2.1⟩

/-- C7: for batches of at most 10 packets the planner returns a
permutation of the indices `0..n-1` that is sorted ascending by size
with ties broken by original index (the stable-sort order); in
particular sizes `[30, 10, 70, 5]` give the order `[3, 1, 0, 2]`. -/
theorem planner_small_batch (sizes : List Nat) (h : sizes.length ≤ 10) :
    ((optimize_packet_transmission sizes).Perm (List.range sizes.length) ∧
      List.Pairwise
        (fun i j => sizes.getD i 0 < sizes.getD j 0 ∨
          (sizes.getD i 0 = sizes.getD j 0 ∧ i < j))
        (optimize_packet_transmission sizes)) ∧
    optimize_packet_transmission [30, 10, 70, 5] = [3, 1, 0, 2] := by
  refine ⟨?_, by decide⟩
  rw [optimize_packet_transmission, if_pos h]
  constructor
  · exact List.perm_insertionSort _ _
  · have hs : List.Sorted (keyLe sizes)
        (List.insertionSort (keyLe sizes) (List.range sizes.length)) :=
      List.sorted_insertionSort _ _
    have hnd : (List.insertionSort (keyLe sizes) (List.range sizes.length)).Nodup :=
      (List.perm_insertionSort (keyLe sizes) (List.range sizes.length)).symm.nodup
        (List.nodup_range _)
    refine (List.Pairwise.and hs hnd).imp ?_
    intro a b hab
    rcases hab with ⟨hk, hne⟩
    unfold keyLe at hk
    omega

/-- C7 witness: the concrete batch of the claim. -/
theorem planner_small_batch_witness :
    (optimize_packet_transmission [30, 10, 70, 5]).Perm (List.range 4) ∧
    List.Pairwise
      (fun i j => List.getD [30, 10, 70, 5] i 0 < List.getD [30, 10, 70, 5] j 0 ∨
        (List.getD [30, 10, 70, 5] i 0 = List.getD [30, 10, 70, 5] j 0 ∧ i < j))
      (optimize_packet_transmission [30, 10, 70, 5]) :=
  ⟨(planner_small_batch [30, 10, 70, 5] (by decide)).1.1,
   (planner_small_batch [30, 10, 70, 5] (by decide)).1.2⟩

theorem pascalAux_eq_map (k : Nat) : pascalAux k = (List.range (k + 1)).map pRow := by
  induction k with
  | zero => rfl
  | succ k ih =>
    have h1 : (List.range (k + 1 + 1)).map pRow =
        (List.range (k + 1)).map pRow ++ [pRow (k + 1)] := by
      rw [List.range_succ, List.map_append]
      rfl
    have h2 : ((List.range (k + 1)).map pRow).getLastD [] = pRow k := by
      rw [List.range_succ, List.map_append]
      exact List.getLastD_concat _ _ _
    show pascalAux k ++ [nextPascalRow ((pascalAux k).getLastD [])] =
      (List.range (k + 1 + 1)).map pRow
    rw [ih, h1, h2]
    rfl

theorem pRow_length (r : Nat) : (pRow r).length = r + 1 := by
  induction r with
  | zero => rfl
  | succ r ih =>
    show (nextPascalRow (pRow r)).length = r + 2
    simp only [nextPascalRow, List.length_cons, List.length_append, List.length_map,
      List.length_range, List.length_nil, ih]
    omega

theorem pRow_getD_zero (r : Nat) : (pRow r).getD 0 0 = 1 := by
  cases r with
  | zero => rfl
  | succ r => rfl

theorem pRow_getD_last (r : Nat) : (pRow r).getD r 0 = 1 := by
  cases r with
  | zero => rfl
  | succ r =>
    show (nextPascalRow (pRow r)).getD (r + 1) 0 = 1
    have hm : ((List.range ((pRow r).length - 1)).map
        (fun j => (pRow r).getD j 0 + (pRow r).getD (j + 1) 0)).length = r := by
      simp [pRow_length]
    rw [nextPascalRow, List.getD_cons_succ, List.getD_eq_getElem?_getD,
      List.getElem?_append_right (by omega), hm]
    simp

theorem pRow_getD_interior (r j : Nat) (h1 : 1 ≤ j) (h2 : j ≤ r) :
    (pRow (r + 1)).getD j 0 = (pRow r).getD (j - 1) 0 + (pRow r).getD j 0 := by
  obtain ⟨j', rfl⟩ : ∃ j', j = j' + 1 := ⟨j - 1, by omega⟩
  have hm : ((List.range ((pRow r).length - 1)).map
      (fun j => (pRow r).getD j 0 + (pRow r).getD (j + 1) 0)).length = r := by
    simp [pRow_length]
  have hj : j' < r := by omega
  show (nextPascalRow (pRow r)).getD (j' + 1) 0 = _
  rw [nextPascalRow, List.getD_cons_succ, List.getD_eq_getElem?_getD,
    List.getElem?_append_left (by omega), List.getElem?_map,
    List.getElem?_range (by simp [pRow_length]; omega)]
  simp

theorem triangle_eq_map (rows : Nat) (h : 1 ≤ rows) :
    generate_pascals_triangle rows = (List.range rows).map pRow := by
  unfold generate_pascals_triangle
  rw [pascalAux_eq_map, Nat.sub_add_cancel h]

theorem mapRange_pRow_getD (n r : Nat) (h : r < n) :
    ((List.range n).map pRow).getD r [] = pRow r := by
  rw [List.getD_eq_getElem?_getD, List.getElem?_map, List.getElem?_range h]
  rfl

/-- C9: the combinatorial table is a pure function of its argument
(determinism), has exactly `rows` rows for `rows ≥ 1`, row `r` has
exactly `r + 1` entries with both edge entries equal to 1, and every
interior entry is the sum of the two entries above it in the previous
row. -/
theorem pascals_triangle_shape (rows : Nat) (h : 1 ≤ rows) :
    (∀ m : Nat, m = rows → generate_pascals_triangle m = generate_pascals_triangle rows) ∧
    (generate_pascals_triangle rows).length = rows ∧
    (∀ r, r < rows →
      ((generate_pascals_triangle rows).getD r []).length = r + 1 ∧
      ((generate_pascals_triangle rows).getD r []).getD 0 0 = 1 ∧
      ((generate_pascals_triangle rows).getD r []).getD r 0 = 1) ∧
    (∀ r j, r + 1 < rows → 1 ≤ j → j ≤ r →
      ((generate_pascals_triangle rows).getD (r + 1) []).getD j 0 =
        ((generate_pascals_triangle rows).getD r []).getD (j - 1) 0 +
          ((generate_pascals_triangle rows).getD r []).getD j 0) := by
  rw [triangle_eq_map rows h]
  refine ⟨fun m hm => by rw [hm, triangle_eq_map rows h], ?_, ?_, ?_⟩
  · simp
  · intro r hr
    rw [mapRange_pRow_getD rows r hr]
    exact ⟨pRow_length r, pRow_getD_zero r, pRow_getD_last r⟩
  · intro r j hr hj1 hj2
    rw [mapRange_pRow_getD rows (r + 1) hr, mapRange_pRow_getD rows r (by omega)]
    exact pRow_getD_interior r j hj1 hj2

/-- C9 witness: the shape facts at 5 rows. -/
theorem pascals_triangle_shape_witness :
    (generate_pascals_triangle 5).length = 5 ∧
    ((generate_pascals_triangle 5).getD 3 []).length = 4 ∧
    ((generate_pascals_triangle 5).getD 3 []).getD 0 0 = 1 ∧
    ((generate_pascals_triangle 5).getD 3 []).getD 3 0 = 1 ∧
    ((generate_pascals_triangle 5).getD 2 []).getD 1 0 =
      ((generate_pascals_triangle 5).getD 1 []).getD 0 0 +
        ((generate_pascals_triangle 5).getD 1 []).getD 1 0 :=
  ⟨(pascals_triangle_shape 5 (by norm_num)).2.1,
   ((pascals_triangle_shape 5 (by norm_num)).2.2.1 3 (by norm_num)).1,
   ((pascals_triangle_shape 5 (by norm_num)).2.2.1 3 (by norm_num)).2.1,
   ((pascals_triangle_shape 5 (by norm_num)).2.2.1 3 (by norm_num)).2.2,
   (pascals_triangle_shape 5 (by norm_num)).2.2.2 1 1 (by norm_num) (by norm_num) (by norm_num)⟩

theorem kadane_fold_facts (arr : List Int) (n : Nat) (hn : 1 ≤ n) :
    ((List.range n).foldl (kadaneStep arr) ⟨none, 0, []⟩).start_indices ≠ [] ∧
    ((List.range n).foldl (kadaneStep arr) ⟨none, 0, []⟩).start_indices.head? = some 0 ∧
    List.Pairwise (· < ·) ((List.range n).foldl (kadaneStep arr) ⟨none, 0, []⟩).start_indices ∧
    ∀ i ∈ ((List.range n).foldl (kadaneStep arr) ⟨none, 0, []⟩).start_indices, i < n := by
  induction n with
  | zero => omega
  | succ n ih =>
    by_cases h1 : n = 0
    · subst h1
      have h0 : List.range 1 = [0] := rfl
      rw [h0, List.foldl_cons, List.foldl_nil, kadaneStep]
      dsimp only
      rw [if_pos (by rfl : kadaneGt (max (arr.getD 0 0) (0 + arr.getD 0 0)) none = true)]
      refine ⟨by simp, by simp, by simp, by simp⟩
    · have hn' : 1 ≤ n := by omega
      obtain ⟨hne, hhead, hpw, hmem⟩ := ih hn'
      rw [List.range_succ, List.foldl_append, List.foldl_cons, List.foldl_nil, kadaneStep]
      split
      · refine ⟨?_, ?_, ?_, ?_⟩
        · intro hcon
          rw [List.append_eq_nil] at hcon
          exact hne hcon.1
        · obtain ⟨a, t, hcons⟩ := List.exists_cons_of_ne_nil hne
          rw [hcons] at hhead ⊢
          simp only [List.head?_cons, Option.some.injEq] at hhead
          simp [hhead]
        · refine List.pairwise_append.2 ⟨hpw, by simp, ?_⟩
          intro a ha b hb
          rw [List.mem_singleton] at hb
          subst hb
          exact hmem a ha
        · intro i hi
          rcases List.mem_append.1 hi with hl | hr
          · exact Nat.lt_succ_of_lt (hmem i hl)
          · rw [List.mem_singleton] at hr
            omega
      · exact ⟨hne, hhead, hpw, fun i hi => Nat.lt_succ_of_lt (hmem i hi)⟩

/-- C10: for batches with more than 10 packets, the index trail produced
by the Kadane-style scan over the negated sizes is nonempty with first
element 0, strictly increasing, and contains only in-range indices, so
the empty-list fallback to the identity permutation is never taken. -/
theorem kadane_trail_valid (sizes : List Nat) (h : 10 < sizes.length) :
    (kadane_algorithm (sizes.map fun s => -(Int.ofNat s))).2 ≠ [] ∧
    ((kadane_algorithm (sizes.map fun s => -(Int.ofNat s))).2).head? = some 0 ∧
    List.Pairwise (· < ·) (kadane_algorithm (sizes.map fun s => -(Int.ofNat s))).2 ∧
    (∀ i ∈ (kadane_algorithm (sizes.map fun s => -(Int.ofNat s))).2, i < sizes.length) ∧
    optimize_packet_transmission sizes = (kadane_algorithm (sizes.map fun s => -(Int.ofNat s))).2 := by
  have hlen : (sizes.map fun s => -(Int.ofNat s)).length = sizes.length := by simp
  have he : (kadane_algorithm (sizes.map fun s => -(Int.ofNat s))).2 =
      ((List.range sizes.length).foldl
        (kadaneStep (sizes.map fun s => -(Int.ofNat s))) ⟨none, 0, []⟩).start_indices := by
    rw [kadane_algorithm, hlen]
  obtain ⟨hne, hhead, hpw, hmem⟩ :=
    kadane_fold_facts (sizes.map fun s => -(Int.ofNat s)) sizes.length (by omega)
  rw [← he] at hne hhead hpw hmem
  refine ⟨hne, hhead, hpw, hmem, ?_⟩
  rw [optimize_packet_transmission, if_neg (by omega : ¬ sizes.length ≤ 10)]
  dsimp only
  obtain ⟨a, t, hcons⟩ := List.exists_cons_of_ne_nil hne
  rw [hcons]
  simp

/-- C10 witness: an 11-packet batch with sizes 1..11. -/
theorem kadane_trail_valid_witness :
    (kadane_algorithm ([1, 2, 3, 4, 5, 6, 7, 8, 9, 10, 11].map fun s => -(Int.ofNat s))).2 ≠ [] ∧
    ((kadane_algorithm ([1, 2, 3, 4, 5, 6, 7, 8, 9, 10, 11].map fun s => -(Int.ofNat s))).2).head? =
      some 0 ∧
    List.Pairwise (· < ·)
      (kadane_algorithm ([1, 2, 3, 4, 5, 6, 7, 8, 9, 10, 11].map fun s => -(Int.ofNat s))).2 ∧
    optimize_packet_transmission [1, 2, 3, 4, 5, 6, 7, 8, 9, 10, 11] =
      (kadane_algorithm ([1, 2, 3, 4, 5, 6, 7, 8, 9, 10, 11].map fun s => -(Int.ofNat s))).2 :=
  ⟨(kadane_trail_valid [1, 2, 3, 4, 5, 6, 7, 8, 9, 10, 11] (by norm_num)).1,
   (kadane_trail_valid [1, 2, 3, 4, 5, 6, 7, 8, 9, 10, 11] (by norm_num)).2.1,
   (kadane_trail_valid [1, 2, 3, 4, 5, 6, 7, 8, 9, 10, 11] (by norm_num)).2.2.1,
   (kadane_trail_valid [1, 2, 3, 4, 5, 6, 7, 8, 9, 10, 11] (by norm_num)).2.2.2.2⟩

theorem foldlM_procStep_cap_nonpos (packets : List Packet) (row : List Nat)
    (clock : Nat → ℚ) (hne : ∀ p ∈ packets, p ≠ []) :
    ∀ (order : List Nat) (st : ProcState), st.shaper.capacity ≤ 0 →
      ∃ (s2 : Shaper) (mets : BandwidthMetrics) (tick : Nat),
        order.foldlM (procStep packets row clock) st =
          some ⟨s2, st.processed, st.dropped ++ visitedFrom packets order, mets, tick⟩ := by
  intro order
  induction order with
  | nil =>
    intro st hcap
    exact ⟨st.shaper, st.metrics, st.tick, by simp [visitedFrom, List.foldlM_nil]⟩
  | cons idx rest ih =>
    intro st hcap
    rw [List.foldlM_cons]
    by_cases hidx : idx < packets.length
    · have hp : packets.getD idx [] ∈ packets := by
        rw [List.getD_eq_getElem?_getD, List.getElem?_eq_getElem hidx]
        exact List.getElem_mem hidx
      have htrad := measure_bandwidth_trad_pos
        ((measure_bandwidth st.shaper (packets.getD idx []) true).2)
        (packets.getD idx []) (hne _ hp)
      have hcap2 : ((measure_bandwidth
          ((measure_bandwidth st.shaper (packets.getD idx []) true).2)
          (packets.getD idx []) false).2).capacity ≤ 0 := by
        rw [measure_bandwidth_snd_capacity, measure_bandwidth_snd_capacity]
        exact hcap
      have hadd := add_packet_cap_nonpos
        ((measure_bandwidth ((measure_bandwidth st.shaper (packets.getD idx []) true).2)
          (packets.getD idx []) false).2)
        (encrypt_packet (packets.getD idx []) row) (clock st.tick) hcap2
      have hstep : procStep packets row clock st idx = some
          ⟨(leak ((measure_bandwidth
              ((measure_bandwidth st.shaper (packets.getD idx []) true).2)
              (packets.getD idx []) false).2) (clock st.tick)).2,
           st.processed, st.dropped ++ [packets.getD idx []],
           ⟨st.metrics.hlba ++ [(measure_bandwidth st.shaper (packets.getD idx []) true).1],
            st.metrics.traditional ++
              [(measure_bandwidth ((measure_bandwidth st.shaper (packets.getD idx []) true).2)
                (packets.getD idx []) false).1],
            st.metrics.individual_differences ++
              [((measure_bandwidth st.shaper (packets.getD idx []) true).1 -
                  (measure_bandwidth
                    ((measure_bandwidth st.shaper (packets.getD idx []) true).2)
                    (packets.getD idx []) false).1) /
                (measure_bandwidth
                  ((measure_bandwidth st.shaper (packets.getD idx []) true).2)
                  (packets.getD idx []) false).1 * 100]⟩,
           st.tick + 1⟩ := by
        rw [procStep, if_pos hidx]
        dsimp only
        rw [if_neg (ne_of_gt htrad), hadd]
        rfl
      rw [hstep]
      simp only [bind_pure_comp, Option.bind_eq_bind, Option.some_bind]
      obtain ⟨s2, mets, tick, hrest⟩ := ih
        ⟨(leak ((measure_bandwidth
            ((measure_bandwidth st.shaper (packets.getD idx []) true).2)
            (packets.getD idx []) false).2) (clock st.tick)).2,
         st.processed, st.dropped ++ [packets.getD idx []],
         ⟨st.metrics.hlba ++ [(measure_bandwidth st.shaper (packets.getD idx []) true).1],
          st.metrics.traditional ++
            [(measure_bandwidth ((measure_bandwidth st.shaper (packets.getD idx []) true).2)
              (packets.getD idx []) false).1],
          st.metrics.individual_differences ++
            [((measure_bandwidth st.shaper (packets.getD idx []) true).1 -
                (measure_bandwidth
                  ((measure_bandwidth st.shaper (packets.getD idx []) true).2)
                  (packets.getD idx []) false).1) /
              (measure_bandwidth
                ((measure_bandwidth st.shaper (packets.getD idx []) true).2)
                (packets.getD idx []) false).1 * 100]⟩,
         st.tick + 1⟩
        (by rw [leak_snd_capacity]; exact hcap2)
      refine ⟨s2, mets, tick, ?_⟩
      rw [hrest]
      have hvis : visitedFrom packets (idx :: rest) =
          packets.getD idx [] :: visitedFrom packets rest := by
        simp [visitedFrom, hidx]
      rw [hvis]
      simp
    · have hstep : procStep packets row clock st idx = some st := by
        rw [procStep, if_neg hidx]
      rw [hstep]
      simp only [bind_pure_comp, Option.bind_eq_bind, Option.some_bind]
      have hvis : visitedFrom packets (idx :: rest) = visitedFrom packets rest := by
        simp [visitedFrom, hidx]
      rw [hvis]
      exact ih st hcap

theorem applyOp_nonpos_nil (s : Shaper) (op : ShaperOp) (hcap : s.capacity ≤ 0)
    (hb : s.bucket = []) : (applyOp s op).bucket = [] := by
  cases op with
  | add p t =>
    show ((add_packet s p t).2).bucket = []
    rw [add_packet_cap_nonpos s p t hcap]
    show ((leak s t).2).bucket = []
    rw [leak_snd_bucket, hb]
    simp
  | drain t =>
    show ((leak s t).2).bucket = []
    rw [leak_snd_bucket, hb]
    simp

theorem runOps_nonpos_nil (s : Shaper) (ops : List ShaperOp) (hcap : s.capacity ≤ 0)
    (hb : s.bucket = []) : (runOps s ops).bucket = [] := by
  induction ops generalizing s with
  | nil => exact hb
  | cons op rest ih =>
    show (runOps (applyOp s op) rest).bucket = []
    exact ih (applyOp s op) (by rw [applyOp_capacity]; exact hcap)
      (applyOp_nonpos_nil s op hcap hb)

/-- C6: an admission appends and reports accepted when the queue is below
capacity; otherwise `leak` is invoked exactly once and the check retried,
and a still-full queue yields a rejected report (no error — the model is
a total function).  With capacity at most 0 no item is ever admitted,
and the orchestrator records every visited packet of such a shaper in
the dropped list. -/
theorem add_packet_admission (s : Shaper) (p : Packet) (now : ℚ) :
    ((s.bucket.length : Int) < s.capacity →
      add_packet s p now = (true, { s with bucket := s.bucket ++ [p] })) ∧
    (¬ (s.bucket.length : Int) < s.capacity →
      add_packet s p now =
        (if (((leak s now).2).bucket.length : Int) < ((leak s now).2).capacity then
          (true, { (leak s now).2 with bucket := ((leak s now).2).bucket ++ [p] })
        else (false, (leak s now).2))) ∧
    (s.capacity ≤ 0 →
      (add_packet s p now).1 = false ∧
      ((add_packet s p now).2).bucket = ((leak s now).2).bucket) ∧
    (∀ (C : Int) (r t0 : ℚ) (ops : List ShaperOp),
      C ≤ 0 → (runOps (initShaper C r t0) ops).bucket = []) ∧
    (∀ (packets : List Packet) (clock : Nat → ℚ) (m : ℚ) (s0 : Shaper),
      s0.capacity ≤ 0 → (∀ q ∈ packets, q ≠ []) →
      ∃ (mets : BandwidthMetrics) (s2 : Shaper),
        process_packets s0 packets clock m =
          some ([], visitedFrom packets
              (optimize_packet_transmission (packets.map List.length)),
            reported_time packets m, mets, s2)) := by
  refine ⟨?_, ?_, ?_, ?_, ?_⟩
  · intro hlt
    rw [add_packet, if_pos hlt]
  · intro hge
    rw [add_packet, if_neg hge]
  · intro hcap
    rw [add_packet_cap_nonpos s p now hcap]
    exact ⟨rfl, rfl⟩
  · intro C r t0 ops hC
    exact runOps_nonpos_nil (initShaper C r t0) ops hC rfl
  · intro packets clock m s0 hcap hne
    obtain ⟨s2, mets, tick, hfold⟩ := foldlM_procStep_cap_nonpos packets
      (selectPascalRow packets.length) clock hne
      (optimize_packet_transmission (packets.map List.length))
      ⟨s0, [], [], ⟨[], [], []⟩, 0⟩ hcap
    refine ⟨mets, s2, ?_⟩
    rw [process_packets]
    rw [hfold]
    simp

/-- C6 witness: concrete accepted and rejected admissions. -/
theorem add_packet_admission_witness :
    add_packet ⟨2, 2, [], 0, 0⟩ [1] 0 = (true, ⟨2, 2, [[1]], 0, 0⟩) ∧
    (add_packet ⟨0, 2, [], 0, 0⟩ [1] 0).1 = false ∧
    ((add_packet ⟨0, 2, [], 0, 0⟩ [1] 0).2).bucket = ((leak ⟨0, 2, [], 0, 0⟩ 0).2).bucket :=
  ⟨(add_packet_admission ⟨2, 2, [], 0, 0⟩ [1] 0).1 (by decide),
   ((add_packet_admission ⟨0, 2, [], 0, 0⟩ [1] 0).2.2.1 (by decide)).1,
   ((add_packet_admission ⟨0, 2, [], 0, 0⟩ [1] 0).2.2.1 (by decide)).2⟩

end HLBA
